import Mathlib

/-!
Shallow embedding of the matrix glyph-rain core of `toll-bill-bot`
(`initializeMatrixEffect` and its helpers `resizeCanvas`, `drawTargetToMap`,
`diffuseFreeze`, `draw`).

Modelling conventions:
* JS numbers that stay integral are `ℕ`/`ℤ`; fractional values are `ℚ`.
* `Math.random()` draws are explicit parameters: a value `r : ℚ` with
  `0 ≤ r < 1` where a bound is needed, or a stream `ℕ → ℚ` indexed by the
  loop variable when one draw happens per column / cell.
* `Math.floor` / `Math.ceil` on nonnegative quantities are `⌊·⌋₊` / `⌈·⌉₊`.
* The mutable module-level state (`columns`, `rows`, `drops`, `freezeMap`)
  is a `GridState` record; functions that mutate it return the new state.
* Canvas pixel data read back by `getImageData` is an external input and is
  modelled as a function `ℕ → ℕ` from flat byte index to byte value; the
  2D-context acquisition that can fail is an `Option` argument.
-/

namespace MatrixRain

/-- Source: `const fontSize = 14;` — the cell size of the character grid. -/
def fontSize : ℕ := 14

/-- Source: `const freezeSpeed = 0.006;` -/
def freezeSpeed : ℚ := 0.006

/-- Source: `const glyphs = ['0', '1'];` -/
def glyphs : List Char := ['0', '1']

/-- The mutable state of the animation: `columns`, `rows`, `drops`,
`freezeMap` from the source. -/
structure GridState where
  columns : ℕ
  rows : ℕ
  drops : List ℕ
  freezeMap : List (List ℕ)
deriving DecidableEq, Repr

/-- Source: `resizeCanvas()`.  `canvas.width = Math.max(Math.floor(rect.width), 240)`,
`canvas.height = Math.max(Math.floor(rect.height), 280)`,
`columns = Math.ceil(canvas.width / fontSize)`,
`rows = Math.ceil(canvas.height / fontSize)`,
`drops = Array.from({length: columns}, () => Math.floor(Math.random() * rows))`,
`freezeMap = Array.from({length: rows}, () => Array(columns).fill(0))`.
`rand i` is the `Math.random()` draw used for column `i`'s initial drop. -/
def resizeCanvas (rectW rectH : ℚ) (rand : ℕ → ℚ) : GridState :=
  let w : ℕ := (max ⌊rectW⌋ 240).toNat
  let h : ℕ := (max ⌊rectH⌋ 280).toNat
  let columns : ℕ := ⌈(w : ℚ) / (fontSize : ℚ)⌉₊
  let rows : ℕ := ⌈(h : ℚ) / (fontSize : ℚ)⌉₊
  { columns := columns
    rows := rows
    drops := (List.range columns).map fun i => ⌊rand i * (rows : ℚ)⌋₊
    freezeMap := List.replicate rows (List.replicate columns 0) }

/-- Source, in `draw()`: `const state = freezeMap[row]?.[column] ?? 0;` —
the total cell-state lookup, `0` when either index is out of range. -/
def stateAt (m : List (List ℕ)) (row col : ℕ) : ℕ :=
  match m[row]? with
  | none => 0
  | some rowL => (rowL[col]?).getD 0

/-- Source, in `draw()`: `drops[column] = row > rows || Math.random() > 0.975 ? 0 : row + 1;` -/
def advanceDrop (rows row : ℕ) (r : ℚ) : ℕ :=
  if rows < row ∨ (0.975 : ℚ) < r then 0 else row + 1

/-- Source, in `draw()`: `glyphs[Math.random() > 0.5 ? 1 : 0]`. -/
def pickGlyph (r : ℚ) : Char :=
  glyphs.getD (if (0.5 : ℚ) < r then 1 else 0) ' '

/-- Source, in `draw()`: the body of the per-column loop.  Looks up the
column's cursor row and cell state; on state `2` it draws in `#e8ffec`
and leaves the cursor where it is, otherwise it draws in `#63f28c`
and advances the cursor.  Returns (fill color, glyph drawn, new cursor row);
`rGlyph` is the glyph draw, `rReset` the early-reset draw. -/
def drawColumn (rows : ℕ) (m : List (List ℕ)) (drops : List ℕ) (column : ℕ)
    (rGlyph rReset : ℚ) : String × Char × ℕ :=
  let row := drops.getD column 0
  if stateAt m row column = 2 then
    ("#e8ffec", pickGlyph rGlyph, row)
  else
    ("#63f28c", pickGlyph rGlyph, advanceDrop rows row rReset)

/-- Source, in `draw()`: the effect of one frame's column loop on `drops`
(`for (let column = 0; column < columns; column += 1) ...`). -/
def drawFrameDrops (rows columns : ℕ) (m : List (List ℕ)) (drops : List ℕ)
    (randG randR : ℕ → ℚ) : List ℕ :=
  (List.range columns).map fun col =>
    (drawColumn rows m drops col (randG col) (randR col)).2.2

/-- Source: the per-cell body of `diffuseFreeze()`:
`if (freezeMap[y][x] === 1) { if (Math.random() < freezeSpeed) freezeMap[y][x] = 2; }
else if (freezeMap[y][x] === 2 && Math.random() < 0.001) freezeMap[y][x] = 1;` -/
def diffuseCell (s : ℕ) (r : ℚ) : ℕ :=
  if s = 1 then (if r < freezeSpeed then 2 else 1)
  else if s = 2 ∧ r < (0.001 : ℚ) then 1
  else s

/-- Source: `diffuseFreeze()` — the double loop over `y < rows`, `x < columns`.
In the source `freezeMap` is exactly `rows × columns`, so the `getD`
defaults are never taken; `rand y x` is the draw for cell `(y, x)`. -/
def diffuseFreeze (rows columns : ℕ) (m : List (List ℕ)) (rand : ℕ → ℕ → ℚ) :
    List (List ℕ) :=
  (List.range rows).map fun y => (List.range columns).map fun x =>
    diffuseCell ((m.getD y []).getD x 0) (rand y x)

/-- Whitespace matched by JavaScript string trimming, ASCII range. -/
def isWS (c : Char) : Bool :=
  c == ' ' || c == '\t' || c == '\n' || c == '\r' || c == '\x0b' || c == '\x0c'

/-- JS `String.prototype.trimEnd` on a line (list of characters). -/
def trimEndCh (l : List Char) : List Char :=
  (l.reverse.dropWhile isWS).reverse

/-- JS `String.prototype.trim`: strip whitespace at both ends. -/
def trimCh (l : List Char) : List Char :=
  trimEndCh (l.dropWhile isWS)

/-- Source, in `drawTargetToMap()`:
`text.trim().split('\n').map(line => line.trimEnd()).filter(line => line.length > 0).slice(0, 6)`. -/
def normalizeLines (text : List Char) : List (List Char) :=
  (((((trimCh text).splitOn '\n').map trimEndCh).filter
      fun l => decide (0 < l.length)).take 6)

/-- The normalization procedure as the spec words it (§4.2): split on line
breaks, trim trailing whitespace per line, discard empty lines, keep the
first 6 — with no whole-string trim first. -/
def normalizeLinesSpec (text : List Char) : List (List Char) :=
  ((((text.splitOn '\n').map trimEndCh).filter
      fun l => decide (0 < l.length)).take 6)

/-- Source: `['TOLL BOT']`'s single element, the built-in default phrase. -/
def defaultPhrase : List Char := ['T', 'O', 'L', 'L', ' ', 'B', 'O', 'T']

/-- Source, in `drawTargetToMap()`:
`const lines = lineList.length > 0 ? lineList : ['TOLL BOT'];` -/
def linesOf (text : List Char) : List (List Char) :=
  if 0 < (normalizeLines text).length then normalizeLines text else [defaultPhrase]

/-- Source: `Math.max(...lines.map(line => line.length), 1)`. -/
def maxLen (ls : List (List Char)) : ℕ :=
  (ls.map List.length).foldr max 1

/-- The spec's "longest line length": the plain maximum of the line lengths. -/
def maxLenSpec (ls : List (List Char)) : ℕ :=
  (ls.map List.length).foldr max 0

/-- Source, in `drawTargetToMap()`:
`Math.max(6, Math.floor(Math.min(columns / (maxLen * 0.62), rows / (lines.length * 1.2))))`. -/
def textSize (columns rows : ℕ) (ls : List (List Char)) : ℕ :=
  max 6 ⌊min ((columns : ℚ) / ((maxLen ls : ℚ) * 0.62))
              ((rows : ℚ) / ((ls.length : ℚ) * 1.2))⌋₊

/-- The font-size formula as the spec words it, with the plain longest line
length in the width constraint. -/
def textSizeSpec (columns rows : ℕ) (ls : List (List Char)) : ℕ :=
  max 6 ⌊min ((columns : ℚ) / ((maxLenSpec ls : ℚ) * 0.62))
              ((rows : ℚ) / ((ls.length : ℚ) * 1.2))⌋₊

/-- Source, in `drawTargetToMap()`: `target[y][x] = alpha > 30 ? 1 : 0;` -/
def targetCell (alpha : ℕ) : ℕ :=
  if 30 < alpha then 1 else 0

/-- Source, in `drawTargetToMap()`: building `target` from
`getImageData(0, 0, columns, rows).data` via
`const i = (y * columns + x) * 4; const alpha = imageData[i + 3];`. -/
def buildTarget (rows columns : ℕ) (imageData : ℕ → ℕ) : List (List ℕ) :=
  (List.range rows).map fun y => (List.range columns).map fun x =>
    targetCell (imageData ((y * columns + x) * 4 + 3))

/-- Source: `drawTargetToMap(text)` as a state transformer.  `imageData` is
`some d` when `local.getContext('2d')` succeeds and `d` is the pixel data
read back after rendering the text; `none` models the failed-context
early return (`if (!localCtx) return;`), which happens before any
animation state is touched.  On success the only state change is
`freezeMap = target`. -/
def drawTargetToMap (st : GridState) (imageData : Option (ℕ → ℕ)) : GridState :=
  match imageData with
  | none => st
  | some d => { st with freezeMap := buildTarget st.rows st.columns d }

/-! ### Helper lemmas -/

lemma getD_range_map {α : Type} (n i : ℕ) (f : ℕ → α) (d : α) (h : i < n) :
    ((List.range n).map f).getD i d = f i := by
  rw [List.getD_eq_getElem?_getD, List.getElem?_map, List.getElem?_range h]
  rfl

lemma foldr_max_init (l : List ℕ) (b : ℕ) : l.foldr max b = max (l.foldr max 0) b := by
  induction l with
  | nil => simp
  | cons x xs ih => simp [List.foldr_cons, ih, max_assoc]

lemma le_foldr_max (l : List ℕ) (x : ℕ) (hx : x ∈ l) : x ≤ l.foldr max 0 := by
  induction l with
  | nil => cases hx
  | cons y ys ih =>
    rcases List.mem_cons.mp hx with h | h
    · simp [h]
    · exact le_trans (ih h) (le_max_right _ _)

lemma advanceDrop_le (rows row : ℕ) (r : ℚ) : advanceDrop rows row r ≤ rows + 1 := by
  unfold advanceDrop
  split
  · exact Nat.zero_le _
  · next h =>
    push_neg at h
    omega

/-! ### Claim theorems -/

/-- C3: one step of the freeze diffusion engine is the three-state automaton:
state `0` is unchanged, state `1` becomes `2` exactly when the draw is below
`freezeSpeed = 0.006` and stays `1` otherwise, state `2` becomes `1` exactly
when the draw is below `0.001` and stays `2` otherwise; the whole-grid step
applies this cellwise. -/
theorem diffuse_three_state_automaton (r : ℚ) (rows columns y x : ℕ)
    (m : List (List ℕ)) (rand : ℕ → ℕ → ℚ) :
    diffuseCell 0 r = 0 ∧
    diffuseCell 1 r = (if r < freezeSpeed then 2 else 1) ∧
    diffuseCell 2 r = (if r < (0.001 : ℚ) then 1 else 2) ∧
    freezeSpeed = 0.006 ∧
    (y < rows → x < columns →
      ((diffuseFreeze rows columns m rand).getD y []).getD x 0
        = diffuseCell ((m.getD y []).getD x 0) (rand y x)) := by
  refine ⟨by simp [diffuseCell], by simp [diffuseCell], by simp [diffuseCell], rfl, ?_⟩
  intro hy hx
  unfold diffuseFreeze
  rw [getD_range_map rows y _ [] hy, getD_range_map columns x _ 0 hx]

/-- C3 witness: the grid step at a concrete 1×1 grid in state `1` with draw `0`. -/
theorem diffuse_three_state_automaton_witness :
    ((diffuseFreeze 1 1 [[1]] fun _ _ => 0).getD 0 []).getD 0 0 = diffuseCell 1 0 :=
  (diffuse_three_state_automaton 0 1 1 0 0 [[1]] fun _ _ => 0).2.2.2.2
    (by norm_num) (by norm_num)

/-- C8: the frame renderer's cell-state lookup is total: when the row index is
past the grid, or the column index is past that row, the lookup yields the
idle state `0`; in general it is the double `getD`-with-default-`0`. -/
theorem stateAt_out_of_range_idle (m : List (List ℕ)) (row col : ℕ) :
    ((m.getD row []).length ≤ col → stateAt m row col = 0) ∧
    (m.length ≤ row → stateAt m row col = 0) ∧
    stateAt m row col = (m.getD row []).getD col 0 := by
  have hD : m.getD row [] = (m[row]?).getD [] := List.getD_eq_getElem?_getD m row []
  cases h : m[row]? with
  | none =>
    refine ⟨fun _ => by simp [stateAt, h], fun _ => by simp [stateAt, h], ?_⟩
    simp [stateAt, h, hD]
  | some rowL =>
    refine ⟨?_, ?_, ?_⟩
    · intro hlen
      rw [hD, h] at hlen
      simp only [Option.getD_some] at hlen
      simp only [stateAt, h]
      rw [List.getElem?_eq_none hlen]
      rfl
    · intro hrow
      rw [List.getElem?_eq_none hrow] at h
      cases h
    · simp [stateAt, h, hD]

/-- C8 witness: a cursor row past the 1-row grid reads as idle. -/
theorem stateAt_out_of_range_idle_witness : stateAt [[2]] 5 0 = 0 :=
  (stateAt_out_of_range_idle [[2]] 5 0).2.1 (by norm_num)

/-- C9: when the off-screen 2D context cannot be obtained, `drawTargetToMap`
returns with the whole state — in particular the live freeze map and the
drop cursor bank — exactly as it was. -/
theorem drawTargetToMap_none_preserves_state (st : GridState) :
    drawTargetToMap st none = st ∧
    (drawTargetToMap st none).freezeMap = st.freezeMap ∧
    (drawTargetToMap st none).drops = st.drops :=
  ⟨rfl, rfl, rfl⟩

/-- C1 counterexample: the per-column draw step does not advance the cursor
unconditionally.  On a 1×1 grid whose only cell is locked (`2`), the cursor
stays at row `0` while the §4.3 advance would move it to row `1`. -/
theorem draw_advance_not_unconditional_cex :
    (drawColumn 1 [[2]] [0] 0 0 0).2.2 ≠ advanceDrop 1 0 0 := by
  norm_num [drawColumn, stateAt, advanceDrop]

/-- C1 (amended): each frame the renderer looks up the column's cursor row and
its cell state; when the state is `2` (locked) it draws in the distinct color
`#e8ffec` and leaves the cursor unchanged, and only in all other states does
it draw in `#63f28c` and advance the cursor per §4.3. -/
theorem draw_advance_only_when_unlocked (rows : ℕ) (m : List (List ℕ))
    (drops : List ℕ) (col : ℕ) (rG rA : ℚ) :
    (stateAt m (drops.getD col 0) col = 2 →
      drawColumn rows m drops col rG rA = ("#e8ffec", pickGlyph rG, drops.getD col 0)) ∧
    (stateAt m (drops.getD col 0) col ≠ 2 →
      drawColumn rows m drops col rG rA
        = ("#63f28c", pickGlyph rG, advanceDrop rows (drops.getD col 0) rA)) ∧
    ("#e8ffec" : String) ≠ "#63f28c" := by
  refine ⟨?_, ?_, by decide⟩
  · intro h
    simp only [drawColumn]
    rw [if_pos h]
  · intro h
    simp only [drawColumn]
    rw [if_neg h]

/-- C1 witness: the locked branch at the concrete 1×1 locked grid. -/
theorem draw_advance_only_when_unlocked_witness :
    drawColumn 1 [[2]] [0] 0 0 0 = ("#e8ffec", pickGlyph 0, 0) :=
  (draw_advance_only_when_unlocked 1 [[2]] [0] 0 0 0).1 (by decide)

/-- C5 counterexample: the rasterizer's normalization is not the claimed
split / per-line-trim / filter / take-6 pipeline: on the input `"  A"` the
code (which first trims the whole string) produces the line `"A"`, while the
claimed pipeline keeps the leading spaces and produces `"  A"`. -/
theorem normalize_missing_whole_trim_cex :
    normalizeLines [' ', 'A'] ≠ normalizeLinesSpec [' ', 'A'] := by decide

/-- C5 (amended): the rasterizer first trims whitespace from both ends of the
whole input, and then normalizes exactly as claimed — split on line breaks,
trim trailing whitespace per line, discard empty lines, keep at most the
first 6 lines; whenever this leaves zero lines (including the empty string)
it substitutes the fixed default phrase, and every surviving line is
nonempty. -/
theorem normalize_trims_whole_string_first (text : List Char) :
    normalizeLines text = normalizeLinesSpec (trimCh text) ∧
    (normalizeLines text = [] → linesOf text = [defaultPhrase]) ∧
    (normalizeLines text ≠ [] → linesOf text = normalizeLines text) ∧
    linesOf [] = [defaultPhrase] ∧
    (normalizeLines text).length ≤ 6 ∧
    (∀ l ∈ linesOf text, 0 < l.length) := by
  refine ⟨rfl, ?_, ?_, by decide, ?_, ?_⟩
  · intro h
    simp [linesOf, h]
  · intro h
    have hc : 0 < (normalizeLines text).length := List.length_pos.mpr h
    simp [linesOf, hc]
  · simp only [normalizeLines]
    rw [List.length_take]
    exact min_le_left _ _
  · intro l hl
    by_cases hc : 0 < (normalizeLines text).length
    · simp only [linesOf, if_pos hc] at hl
      simp only [normalizeLines] at hl
      have h2 := List.take_subset 6 _ hl
      have h3 := (List.mem_filter.mp h2).2
      exact of_decide_eq_true h3
    · simp only [linesOf, if_neg hc] at hl
      rw [List.mem_singleton] at hl
      subst hl
      decide

/-- C5 witness: the empty input falls back to the default phrase. -/
theorem normalize_trims_whole_string_first_witness :
    linesOf [] = [defaultPhrase] :=
  (normalize_trims_whole_string_first []).2.1 (by decide)

/-- C4: the rasterized target grid contains only `0`s and `1`s, and a
successful re-target replaces the live freeze map by the target verbatim, so
no cell holds state `2` immediately afterwards. -/
theorem retarget_resets_to_binary_target (st : GridState) (d : ℕ → ℕ) :
    (drawTargetToMap st (some d)).freezeMap = buildTarget st.rows st.columns d ∧
    (∀ rowL ∈ buildTarget st.rows st.columns d, ∀ c ∈ rowL, c = 0 ∨ c = 1) ∧
    (∀ rowL ∈ (drawTargetToMap st (some d)).freezeMap, ∀ c ∈ rowL, c ≠ 2) := by
  have h01 : ∀ rowL ∈ buildTarget st.rows st.columns d, ∀ c ∈ rowL, c = 0 ∨ c = 1 := by
    intro rowL hrow c hc
    simp only [buildTarget, List.mem_map, List.mem_range] at hrow
    obtain ⟨y, _, rfl⟩ := hrow
    simp only [List.mem_map, List.mem_range] at hc
    obtain ⟨x, _, rfl⟩ := hc
    unfold targetCell
    split
    · right
      rfl
    · left
      rfl
  refine ⟨rfl, h01, ?_⟩
  intro rowL hrow c hc
  simp only [drawTargetToMap] at hrow
  rcases h01 rowL hrow c hc with rfl | rfl <;> omega

/-- C4 witness: a fully opaque 1×1 image rasterizes to the single cell `1`,
which is `0` or `1`. -/
theorem retarget_resets_to_binary_target_witness : (1 : ℕ) = 0 ∨ (1 : ℕ) = 1 :=
  (retarget_resets_to_binary_target ⟨1, 1, [0], [[0]]⟩ fun _ => 100).2.1
    [1] (by decide) 1 (by decide)

/-- C6: a drop cursor advanced with the early-reset draw never firing
(`r ≤ 0.975`) increases by exactly `1` each frame while it is at most
`rows + 1`; any cursor strictly beyond `rows` resets to `0` on its next
advance; for a cursor not yet past the bottom the advance resets exactly when
the draw exceeds `0.975` (an event of probability `0.025` for a uniform draw
on `[0,1)`); and every advance either resets to `0` or increments by one. -/
theorem advanceDrop_trajectory (rows start n : ℕ) (r : ℚ) :
    (r ≤ 0.975 → start + n ≤ rows + 1 →
      (fun row => advanceDrop rows row r)^[n] start = start + n) ∧
    (rows < start → advanceDrop rows start r = 0) ∧
    (start ≤ rows → (advanceDrop rows start r = 0 ↔ (0.975 : ℚ) < r)) ∧
    (advanceDrop rows start r = 0 ∨ advanceDrop rows start r = start + 1) := by
  refine ⟨?_, ?_, ?_, ?_⟩
  · intro hr
    induction n generalizing start with
    | zero =>
      intro _
      simp
    | succ k ih =>
      intro hle
      have hcond : ¬(rows < start ∨ (0.975 : ℚ) < r) := by
        push_neg
        exact ⟨by omega, hr⟩
      have hstep : advanceDrop rows start r = start + 1 := by
        unfold advanceDrop
        rw [if_neg hcond]
      simp only [Function.iterate_succ_apply]
      rw [hstep, ih (start + 1) (by omega)]
      omega
  · intro h
    unfold advanceDrop
    rw [if_pos (Or.inl h)]
  · intro hs
    unfold advanceDrop
    split_ifs with hcond
    · constructor
      · intro _
        rcases hcond with h | h
        · omega
        · exact h
      · intro _
        rfl
    · push_neg at hcond
      constructor
      · intro h
        exact h.elim
      · intro hgt
        exact absurd hgt (not_lt.mpr hcond.2)
  · unfold advanceDrop
    split_ifs <;> simp

/-- C6 witness: from row `0` with the early-reset draw never firing, four
advances on a 3-row grid land on row `4 = 0 + 4`. -/
theorem advanceDrop_trajectory_witness :
    (fun row => advanceDrop 3 row 0)^[4] 0 = 0 + 4 :=
  (advanceDrop_trajectory 3 0 4 0).1 (by norm_num) (by norm_num)

/-- C2 counterexample: at surface width 241 (≥ the 240 floor) the grid model
produces `⌈241/14⌉ = 18` columns, not `⌊241/14⌋ = 17` as claimed. -/
theorem resize_uses_ceil_not_floor_cex :
    (resizeCanvas 241 280 fun _ => 0).columns ≠ ⌊(241 : ℚ) / 14⌋₊ := by
  have h1 : (resizeCanvas 241 280 fun _ => 0).columns = 18 := by
    show ⌈((max ⌊(241 : ℚ)⌋ 240).toNat : ℚ) / (fontSize : ℚ)⌉₊ = 18
    rw [show (max ⌊(241 : ℚ)⌋ 240).toNat = 241 by
      rw [show ⌊(241 : ℚ)⌋ = 241 by norm_num]
      omega]
    norm_num [fontSize]
    rw [Nat.ceil_eq_iff (by norm_num)]
    norm_num
  have h2 : ⌊(241 : ℚ) / 14⌋₊ = 17 := by
    rw [Nat.floor_eq_iff (by positivity)]
    norm_num
  rw [h1, h2]
  norm_num

/-- C2 (amended): for every surface whose floored bounding-rect dimensions are
already at or above the 240×280 floor, resize produces
`columns = ⌈width/cellSize⌉` and `rows = ⌈height/cellSize⌉` (cellSize = 14,
rounding up rather than down), and the drop cursor bank has length `columns`
immediately after the resize. -/
theorem resize_dims_ceil (rectW rectH : ℚ) (rand : ℕ → ℚ) (w h : ℕ)
    (hw : ⌊rectW⌋ = (w : ℤ)) (hh : ⌊rectH⌋ = (h : ℤ))
    (h240 : 240 ≤ w) (h280 : 280 ≤ h) :
    (resizeCanvas rectW rectH rand).columns = ⌈(w : ℚ) / 14⌉₊ ∧
    (resizeCanvas rectW rectH rand).rows = ⌈(h : ℚ) / 14⌉₊ ∧
    (resizeCanvas rectW rectH rand).drops.length
      = (resizeCanvas rectW rectH rand).columns := by
  have hW : (max ⌊rectW⌋ 240).toNat = w := by
    rw [hw]
    omega
  have hH : (max ⌊rectH⌋ 280).toNat = h := by
    rw [hh]
    omega
  refine ⟨?_, ?_, ?_⟩
  · show ⌈((max ⌊rectW⌋ 240).toNat : ℚ) / (fontSize : ℚ)⌉₊ = _
    rw [hW]
    norm_num [fontSize]
  · show ⌈((max ⌊rectH⌋ 280).toNat : ℚ) / (fontSize : ℚ)⌉₊ = _
    rw [hH]
    norm_num [fontSize]
  · show ((List.range _).map _).length = _
    rw [List.length_map, List.length_range]
    rfl

/-- C2 witness: a 250×287 surface gives `⌈250/14⌉` columns, `⌈287/14⌉` rows,
and a cursor bank of `columns` entries. -/
theorem resize_dims_ceil_witness :
    (resizeCanvas 250 287 fun _ => 0).columns = ⌈(250 : ℚ) / 14⌉₊ ∧
    (resizeCanvas 250 287 fun _ => 0).rows = ⌈(287 : ℚ) / 14⌉₊ ∧
    (resizeCanvas 250 287 fun _ => 0).drops.length
      = (resizeCanvas 250 287 fun _ => 0).columns :=
  resize_dims_ceil 250 287 (fun _ => 0) 250 287
    (by norm_num) (by norm_num) (by norm_num) (by norm_num)

/-- C7: for a normalized line list (nonempty, all lines nonempty), the
rasterizer's font size is exactly
`max(6, floor(min(columns/(maxLineLength*0.62), rows/(lineCount*1.2))))`
with the plain longest-line length — the source's extra `Math.max(..., 1)`
guard never changes the value on such input. -/
theorem textSize_matches_spec_formula (columns rows : ℕ) (ls : List (List Char))
    (hne : ls ≠ []) (hlines : ∀ l ∈ ls, l ≠ []) :
    textSize columns rows ls = textSizeSpec columns rows ls := by
  have hm : maxLen ls = maxLenSpec ls := by
    unfold maxLen maxLenSpec
    rw [foldr_max_init]
    have h1 : 1 ≤ (ls.map List.length).foldr max 0 := by
      obtain ⟨l, hl⟩ := List.exists_mem_of_ne_nil ls hne
      have h2 : 1 ≤ l.length := List.length_pos.mpr (hlines l hl)
      exact le_trans h2 (le_foldr_max _ _ (List.mem_map_of_mem _ hl))
    omega
  unfold textSize textSizeSpec
  rw [hm]

/-- C7 witness: the formula at a 24×20 grid showing the single line `HI`. -/
theorem textSize_matches_spec_formula_witness :
    textSize 24 20 [['H', 'I']] = textSizeSpec 24 20 [['H', 'I']] :=
  textSize_matches_spec_formula 24 20 [['H', 'I']] (by decide) (by decide)

/-- C10: the drop cursor bank invariant.  Right after a resize every entry is
below `rows` (given that each `Math.random()` draw is in `[0,1)`); one frame
of the column loop keeps every entry at most `rows + 1` whenever they all
were; and per column the new entry is the old one (locked cell), `0` (reset),
or the old one plus `1` (advance). -/
theorem drops_bank_invariant (rectW rectH : ℚ) (rand0 : ℕ → ℚ)
    (rows columns : ℕ) (m : List (List ℕ)) (drops : List ℕ) (randG randR : ℕ → ℚ) :
    ((∀ i, 0 ≤ rand0 i ∧ rand0 i < 1) →
      1 ≤ (resizeCanvas rectW rectH rand0).rows ∧
      ∀ d ∈ (resizeCanvas rectW rectH rand0).drops,
        d < (resizeCanvas rectW rectH rand0).rows) ∧
    ((∀ d ∈ drops, d ≤ rows + 1) →
      ∀ d ∈ drawFrameDrops rows columns m drops randG randR, d ≤ rows + 1) ∧
    (∀ col, col < columns →
      (drawFrameDrops rows columns m drops randG randR).getD col 0 = drops.getD col 0 ∨
      (drawFrameDrops rows columns m drops randG randR).getD col 0 = 0 ∨
      (drawFrameDrops rows columns m drops randG randR).getD col 0
        = drops.getD col 0 + 1) := by
  refine ⟨?_, ?_, ?_⟩
  · intro hr
    have h280 : (280 : ℕ) ≤ (max ⌊rectH⌋ 280).toNat := by omega
    have hceil : ⌈(280 : ℚ) / 14⌉₊ = 20 := by
      rw [Nat.ceil_eq_iff (by norm_num)]
      norm_num
    have h20 : 20 ≤ (resizeCanvas rectW rectH rand0).rows := by
      show 20 ≤ ⌈((max ⌊rectH⌋ 280).toNat : ℚ) / (fontSize : ℚ)⌉₊
      rw [← hceil]
      apply Nat.ceil_mono
      rw [show ((fontSize : ℕ) : ℚ) = 14 by norm_num [fontSize]]
      gcongr
      exact_mod_cast h280
    refine ⟨by omega, ?_⟩
    intro d hd
    have hd' : d ∈ (List.range (resizeCanvas rectW rectH rand0).columns).map
        fun i => ⌊rand0 i * ((resizeCanvas rectW rectH rand0).rows : ℚ)⌋₊ := hd
    simp only [List.mem_map, List.mem_range] at hd'
    obtain ⟨i, _, rfl⟩ := hd'
    have hpos : (0 : ℚ) < ((resizeCanvas rectW rectH rand0).rows : ℚ) := by
      exact_mod_cast Nat.lt_of_lt_of_le (by norm_num) h20
    refine (Nat.floor_lt (mul_nonneg (hr i).1 (by positivity))).mpr ?_
    exact mul_lt_of_lt_one_left hpos (hr i).2
  · intro hb d hd
    simp only [drawFrameDrops, List.mem_map, List.mem_range] at hd
    obtain ⟨col, _, rfl⟩ := hd
    have hrowle : drops.getD col 0 ≤ rows + 1 := by
      rw [List.getD_eq_getElem?_getD]
      cases h : drops[col]? with
      | none => simp
      | some v =>
        have hv : v ∈ drops := List.getElem?_mem h
        simpa using hb v hv
    simp only [drawColumn]
    split_ifs
    · exact hrowle
    · exact advanceDrop_le _ _ _
  · intro col hcol
    rw [drawFrameDrops, getD_range_map _ _ _ 0 hcol]
    simp only [drawColumn]
    split_ifs
    · left
      rfl
    · unfold advanceDrop
      split_ifs
      · right
        left
        rfl
      · right
        right
        rfl

/-- C10 witness: one frame on a 1×1 locked grid leaves the single entry as it
was, resets it, or increments it. -/
theorem drops_bank_invariant_witness :
    (drawFrameDrops 1 1 [[2]] [0] (fun _ => 0) fun _ => 0).getD 0 0 = [0].getD 0 0 ∨
    (drawFrameDrops 1 1 [[2]] [0] (fun _ => 0) fun _ => 0).getD 0 0 = 0 ∨
    (drawFrameDrops 1 1 [[2]] [0] (fun _ => 0) fun _ => 0).getD 0 0 = [0].getD 0 0 + 1 :=
  (drops_bank_invariant 0 0 (fun _ => 0) 1 1 [[2]] [0] (fun _ => 0) fun _ => 0).2.2
    0 (by norm_num)

end MatrixRain
